import Mathlib

/-
Shallow embedding of the RION codec (ferion repository).

Bytes are modelled as natural numbers (values below 256 in every use),
byte buffers as lists of naturals, fallible Rust functions as
`Except String`.  Each definition mirrors one function of the source;
the file and function are named in its doc comment.
-/

namespace Ferion

/-- Mirrors `enum ShortRionType` in src/types.rs. -/
inductive ShortRionType where
  | int64Positive
  | int64Negative
  | utf8
  | utcDateTime
  | float
  | key
deriving DecidableEq, Repr

/-- Mirrors `enum NormalRionType` in src/types.rs. -/
inductive NormalRionType where
  | bytes
  | utf8
  | array
  | table
  | object
  | key
deriving DecidableEq, Repr

/-- Mirrors `enum RionFieldType` in src/types.rs. -/
inductive RionFieldType where
  | short (t : ShortRionType)
  | normal (t : NormalRionType)
  | bool (b : Option Bool)
  | extended
deriving DecidableEq, Repr

/-- Mirrors `ShortRionType::to_byte` in src/types.rs (type-code nibble). -/
def ShortRionType.toByte : ShortRionType → Nat
  | .int64Positive => 0x2
  | .int64Negative => 0x3
  | .float => 0x4
  | .utf8 => 0x6
  | .utcDateTime => 0x7
  | .key => 0xE

/-- Mirrors `NormalRionType::to_byte` in src/types.rs (type-code nibble). -/
def NormalRionType.toByte : NormalRionType → Nat
  | .bytes => 0x0
  | .utf8 => 0x5
  | .array => 0xA
  | .table => 0xB
  | .object => 0xC
  | .key => 0xD

/-- Mirrors `impl TryFrom<u8> for ShortRionType` in src/types.rs
(matches on the high nibble of the argument). -/
def ShortRionType.tryFrom (value : Nat) : Except String ShortRionType :=
  match (value &&& 0xF0) >>> 4 with
  | 0x2 => .ok .int64Positive
  | 0x3 => .ok .int64Negative
  | 0x4 => .ok .float
  | 0x6 => .ok .utf8
  | 0x7 => .ok .utcDateTime
  | 0xE => .ok .key
  | _ => .error "Invalid short field type"

/-- Mirrors `impl TryFrom<u8> for NormalRionType` in src/types.rs. -/
def NormalRionType.tryFrom (value : Nat) : Except String NormalRionType :=
  match (value &&& 0xF0) >>> 4 with
  | 0x0 => .ok .bytes
  | 0x5 => .ok .utf8
  | 0xA => .ok .array
  | 0xB => .ok .table
  | 0xC => .ok .object
  | 0xD => .ok .key
  | _ => .error "Invalid normal field type"

/-- Mirrors `impl TryFrom<u8> for RionFieldType` in src/types.rs.
Note the tiny-family arm faithfully reproduces the source computation
`(value & 0x30) >> 4`, which is 1 for every byte whose high nibble is 1.
Rust match-arm order (the normal arm `0x0 | 0x5 | 0xA..=0xD` wins over the
later short arm `0x0..=0x7 | 0xE`) is reproduced by listing the reachable
literals of each arm. -/
def RionFieldType.tryFrom (value : Nat) : Except String RionFieldType :=
  let typeBits := value &&& 0xF0
  match typeBits >>> 4 with
  | 0x1 =>
    match (value &&& 0x30) >>> 4 with
    | 0x0 => .ok (.bool none)
    | 0x1 => .ok (.bool (some false))
    | 0x2 => .ok (.bool (some true))
    | _ => .error "Invalid field type"
  | 0xF => .ok .extended
  | 0x0 => (NormalRionType.tryFrom typeBits).map .normal
  | 0x5 => (NormalRionType.tryFrom typeBits).map .normal
  | 0xA => (NormalRionType.tryFrom typeBits).map .normal
  | 0xB => (NormalRionType.tryFrom typeBits).map .normal
  | 0xC => (NormalRionType.tryFrom typeBits).map .normal
  | 0xD => (NormalRionType.tryFrom typeBits).map .normal
  | 0x2 => (ShortRionType.tryFrom typeBits).map .short
  | 0x3 => (ShortRionType.tryFrom typeBits).map .short
  | 0x4 => (ShortRionType.tryFrom typeBits).map .short
  | 0x6 => (ShortRionType.tryFrom typeBits).map .short
  | 0x7 => (ShortRionType.tryFrom typeBits).map .short
  | 0xE => (ShortRionType.tryFrom typeBits).map .short
  | _ => .error "Invalid field type"

/-- Mirrors `RionFieldType::is_key` in src/types.rs. -/
def RionFieldType.isKey : RionFieldType → Bool
  | .short .key => true
  | .normal .key => true
  | _ => false

/-- Mirrors `RionFieldType::is_str` in src/types.rs. -/
def RionFieldType.isStr : RionFieldType → Bool
  | .short .utf8 => true
  | .normal .utf8 => true
  | _ => false

/-- Mirrors `struct LeadByte(RionFieldType, u8)` in src/types.rs.  In the
`TryFrom<u8>` path the second component is the whole raw byte. -/
structure LeadByte where
  fieldType : RionFieldType
  raw : Nat
deriving DecidableEq, Repr

/-- Mirrors `impl TryFrom<u8> for LeadByte` in src/types.rs. -/
def LeadByte.tryFrom (value : Nat) : Except String LeadByte :=
  (RionFieldType.tryFrom value).map (fun ft => LeadByte.mk ft value)

/-- Mirrors `LeadByte::length` in src/types.rs: zero for every Bool lead,
otherwise the low nibble of the stored byte. -/
def LeadByte.length (l : LeadByte) : Nat :=
  match l.fieldType with
  | .bool _ => 0
  | _ => l.raw &&& 0x0F

/-- Mirrors `LeadByte::is_null` in src/types.rs. -/
def LeadByte.isNull (l : LeadByte) : Bool :=
  match l.fieldType with
  | .bool none => true
  | _ => l.length == 0

/-- Fuel-driven helper for `neededBytesUsize`; the fuel only serves to
make the recursion structural, `fuel ≥ n` makes its value independent of
the fuel (`neededBytesAux_eq_of_le`). -/
def neededBytesAux : Nat → Nat → Nat
  | _, 0 => 0
  | 0, _ + 1 => 0
  | fuel + 1, m + 1 => neededBytesAux fuel ((m + 1) / 256) + 1

/-- Modelled from the spec: `bytes_needed(n) -> 0..=8`, the number of
significant big-endian bytes of `n`, with `bytes_needed(0) = 0`.  The
source function `needed_bytes_usize` lives in the crate root, which is
absent from src/ (only an older revision of lib.rs is present). -/
def neededBytesUsize (n : Nat) : Nat := neededBytesAux n n

/-- Fuel-driven helper for `intToBytes`; `fuel ≥ n` makes its value
independent of the fuel (`intToBytesAux_eq_of_le`). -/
def intToBytesAux : Nat → Nat → List Nat
  | _, 0 => []
  | 0, _ + 1 => []
  | fuel + 1, m + 1 => intToBytesAux fuel ((m + 1) / 256) ++ [(m + 1) % 256]

/-- Modelled from the spec: `write_compact_uint` writes exactly
`bytes_needed(n)` big-endian bytes, nothing for zero.  The source
function `int_to_bytes` lives in the missing crate root. -/
def intToBytes (n : Nat) : List Nat := intToBytesAux n n

/-- Modelled from the spec: `read_compact_uint` reads the whole slice as a
big-endian unsigned 64-bit integer; more than 8 bytes do not fit a u64.
The source function `bytes_to_uint` lives in the missing crate root. -/
def bytesToUint (bytes : List Nat) : Except String Nat :=
  if bytes.length > 8 then .error "Too many bytes for u64"
  else .ok (bytes.foldl (fun acc b => acc * 256 + b) 0)

/-- Modelled from the spec: `get_header` reads the lead byte and then
`lead.length()` raw bytes (payload of a short field, length field of a
normal field), returning lead, that slice and the remainder.  The source
function lives in the missing crate root; its shape is fixed by every
caller in src/field.rs and src/serde/de/deserializer.rs. -/
def getHeader (data : List Nat) : Except String (LeadByte × List Nat × List Nat) :=
  match data with
  | [] => .error "Data is empty"
  | first :: rest => do
    let lead ← LeadByte.tryFrom first
    let ll := lead.length
    if rest.length < ll then .error "Input too short for header"
    else .ok (lead, rest.take ll, rest.drop ll)

/-- Mirrors `enum RionField` in src/field.rs: a Bool field, a short field
(type plus payload of at most 15 bytes) or a normal field. -/
inductive RionField where
  | bool (b : Option Bool)
  | short (t : ShortRionType) (data : List Nat)
  | normal (t : NormalRionType) (data : List Nat)
deriving DecidableEq, Repr

/-- Mirrors `RionField::is_key` in src/field.rs. -/
def RionField.isKey : RionField → Bool
  | .short .key _ => true
  | .normal .key _ => true
  | _ => false

/-- Mirrors `RionField::is_short_type` in src/field.rs. -/
def RionField.isShortType : RionField → ShortRionType → Bool
  | .short t _, ft => t == ft
  | _, _ => false

/-- Mirrors `RionField::is_normal_type` in src/field.rs. -/
def RionField.isNormalType : RionField → NormalRionType → Bool
  | .normal t _, ft => t == ft
  | _, _ => false

/-- Mirrors `RionField::to_data` in src/field.rs. -/
def RionField.toData : RionField → Option (List Nat)
  | .short _ data => some data
  | .normal _ data => some data
  | .bool _ => none

/-- Mirrors `impl From<&str> for RionField` in src/field.rs (lines 472-497),
over the UTF-8 bytes of the string: length 0 gives an empty normal UTF-8
field, lengths 1..=15 a short UTF-8 field, longer a normal UTF-8 field. -/
def RionField.fromStr (value : List Nat) : RionField :=
  if value.length = 0 then .normal .utf8 []
  else if value.length ≤ 15 then .short .utf8 value
  else .normal .utf8 value

/-- Mirrors `RionField::key` in src/field.rs (lines 208-220). -/
def RionField.key (k : List Nat) : RionField :=
  if k.length < 16 then .short .key k else .normal .key k

/-- Big-endian bytes of `n` with leading zero bytes stripped but at least
one byte: this is what `value.to_be_bytes()[zeros..]` computes in
`impl From<i64> for RionField` (src/field.rs lines 390-409), where `zeros`
is 7 when the magnitude is 0 and `leading_zeros()/8` otherwise.  For
magnitudes below 2^64 that suffix equals the minimal big-endian form. -/
def minBytesBE (n : Nat) : List Nat :=
  if n = 0 then [0] else intToBytes n

/-- Mirrors `impl From<i64> for RionField` in src/field.rs (lines 390-409):
a negative value is stored under `Int64Negative` with magnitude
`-(value+1)`, a non-negative one under `Int64Positive`, both with leading
zero bytes stripped (one `0x00` byte for magnitude zero). -/
def RionField.fromI64 (v : Int) : RionField :=
  if v < 0 then .short .int64Negative (minBytesBE (-(v + 1)).toNat)
  else .short .int64Positive (minBytesBE v.toNat)

/-- Mirrors `ShortField::extend` in src/field.rs: one lead byte carrying
the type nibble and the payload length, then the payload. -/
def shortFieldExtend (t : ShortRionType) (data : List Nat) : List Nat :=
  ((t.toByte <<< 4) ||| data.length) :: data

/-- Mirrors `NormalField::extend` in src/field.rs: lead byte with
`needed_bytes` of the payload length in the low nibble, then the compact
big-endian length, then the payload. -/
def normalFieldExtend (t : NormalRionType) (data : List Nat) : Except String (List Nat) :=
  let ll := neededBytesUsize data.length
  if ll > 15 then .error "Data length too large for normal field"
  else .ok (((t.toByte <<< 4) ||| ll) :: (intToBytes data.length ++ data))

/-- Mirrors `RionField::encode` in src/field.rs (lines 275-292). -/
def RionField.encode : RionField → Except String (List Nat)
  | .bool b =>
    .ok [(0x1 <<< 4) ||| (match b with | some v => (if v then 1 else 0) + 1 | none => 0)]
  | .short t data => .ok (shortFieldExtend t data)
  | .normal t data => normalFieldExtend t data

/-- Mirrors `RionField::parse` in src/field.rs (lines 257-273).  The Rust
`todo!()` on extended leads and the panicking slice index
`&rest[..length]` are modelled as errors. -/
def RionField.parse (data : List Nat) : Except String (RionField × List Nat) := do
  let (lead, length, rest) ← getHeader data
  match lead.fieldType with
  | .short s => .ok (.short s length, rest)
  | .normal n => do
    let len ← bytesToUint length
    if len ≤ rest.length then .ok (.normal n (rest.take len), rest.drop len)
    else .error "Input too short for data"
  | .bool b => .ok (.bool b, rest)
  | .extended => .error "not yet implemented"

/-- Mirrors `RionField::from_slice` in src/field.rs (lines 294-300):
parse one field and reject any remaining input. -/
def RionField.fromSlice (buf : List Nat) : Except String RionField := do
  let (field, rest) ← RionField.parse buf
  if rest.isEmpty then .ok field else .error "Extra data after field"

/-- Insertion into the decoded-object map, mirroring the behaviour of
`HashMap::insert` in `RionObject::parse_rest` (src/object.rs): an existing
binding for the same key bytes is silently replaced. -/
def insertField (m : List (List Nat × RionField)) (k : List Nat) (v : RionField) :
    List (List Nat × RionField) :=
  match m with
  | [] => [(k, v)]
  | (k0, v0) :: rest => if k0 = k then (k0, v) :: rest else (k0, v0) :: insertField rest k v

/-- Loop body of `RionObject::parse_rest` (src/object.rs lines 33-46),
fuelled by the input length (each iteration consumes at least two bytes,
so `data.length` steps always suffice). -/
def parseRestLoop : Nat → List Nat → List (List Nat × RionField) →
    Except String (List (List Nat × RionField))
  | 0, data, acc => if data.isEmpty then .ok acc else .error "out of fuel"
  | fuel + 1, data, acc =>
    if data.isEmpty then .ok acc
    else do
      let (key, rest) ← RionField.parse data
      if !key.isKey then .error "Expected a key"
      else do
        let (value, rest2) ← RionField.parse rest
        match key.toData with
        | some kd => parseRestLoop fuel rest2 (insertField acc kd value)
        | none => .error "key field has no data"

/-- Mirrors `RionObject::parse_rest` in src/object.rs (lines 33-46): split
the payload into key/value field pairs and insert each pair into the map;
no duplicate-key check is performed. -/
def RionObject.parseRest (data : List Nat) : Except String (List (List Nat × RionField)) :=
  parseRestLoop data.length data []

/-- Mirrors the `Int64Negative` arm of `deserialize_short` in
src/serde/de/deserializer.rs (lines 189-193): the payload is read as a
big-endian magnitude `m` and the visitor receives `-(m) - 1`. -/
def deserializeShortNeg (payload : List Nat) : Except String Int :=
  (bytesToUint payload).map (fun (m : Nat) => -(m : Int) - 1)

/-- Mirrors `Deserializer::deserialize_field` in
src/serde/de/deserializer.rs (lines 236-263) driven by an integer
visitor (the path taken by `from_bytes` at integer host types):
`visit_u64`/`visit_i64` succeed, `visit_none` and every other visit
method of the integer visitor fail.  `from_bytes` itself (lines 71-77)
returns this result without examining the remaining input, so the
unconsumed tail is ignored here exactly as in the source. -/
def deserializeFieldInt (data : List Nat) : Except String Int := do
  let (lead, length, _rest) ← getHeader data
  if lead.isNull then .error "invalid type: Option value, expected an integer"
  else
    match lead.fieldType with
    | .short .int64Positive => (bytesToUint length).map Int.ofNat
    | .short .int64Negative => deserializeShortNeg length
    | _ => .error "invalid type: expected an integer"

/-- Mirrors `Deserializer::deserialize_field` in
src/serde/de/deserializer.rs driven by a bool visitor (the path taken by
`from_bytes::<bool>`): only `visit_bool` succeeds; `visit_none`, taken
whenever `lead.is_null()`, fails for this visitor. -/
def deserializeFieldBool (data : List Nat) : Except String Bool := do
  let (lead, _length, _rest) ← getHeader data
  if lead.isNull then .error "invalid type: Option value, expected a boolean"
  else
    match lead.fieldType with
    | .bool b =>
      match b with
      | some v => .ok v
      | none => .error "unreachable: null bool is caught by is_null"
    | _ => .error "invalid type: expected a boolean"

/-- Mirrors `Deserializer::deserialize_option` in
src/serde/de/deserializer.rs (lines 397-410) at host type `Option<bool>`:
peek the first byte, parse it as a lead; if `is_null()` holds the visitor
produces `none` without consuming further, otherwise the full bool
deserialization runs under `visit_some`. -/
def deserializeOptionBool (data : List Nat) : Except String (Option Bool) :=
  match data with
  | [] => .error "end of available data"
  | first :: _ => do
    let lead ← LeadByte.tryFrom first
    if lead.isNull then .ok none
    else (deserializeFieldBool data).map some

/-- Serializer state, mirroring `struct Serializer` in
src/serde/ser/serializer.rs: the output buffer and the stack of open
container start offsets (head of the list is the top of the stack). -/
structure SerState where
  output : List Nat
  stack : List Nat
deriving DecidableEq, Repr

/-- Mirrors `Serializer::start_container` in src/serde/ser/serializer.rs
(lines 42-45): push the current offset and append the lead byte with L=0
plus one reserved placeholder length byte. -/
def startContainer (s : SerState) (typeByte : Nat) : SerState :=
  { output := s.output ++ [typeByte <<< 4, 0], stack := s.output.length :: s.stack }

/-- Mirrors `Serializer::end_container` in src/serde/ser/serializer.rs
(lines 47-71).  The source panics on an empty stack; that is modelled as
an error.  `payload_len = output.len - start - 2`; if it needs no length
bytes the placeholder is removed, otherwise the L nibble is or-ed in,
`needed_bytes - 1` zero bytes are spliced in after the lead and the
big-endian length overwrites the first `needed_bytes` positions after the
lead. -/
def endContainer (s : SerState) : Except String SerState :=
  match s.stack with
  | [] => .error "No object to end"
  | start :: stackRest =>
    let len := s.output.length - start - 2
    let ll := neededBytesUsize len
    if ll = 0 then
      .ok { output := s.output.take (start + 1) ++ s.output.drop (start + 2),
            stack := stackRest }
    else
      let out1 := s.output.set start ((s.output.getD start 0) ||| ll)
      let out2 := out1.take (start + 1) ++ List.replicate (ll - 1) 0 ++ out1.drop (start + 1)
      let out3 := out2.take (start + 1) ++ intToBytes len ++ out2.drop (start + 1 + ll)
      .ok { output := out3, stack := stackRest }

/-- Error type of the map-key fixup in `SerializeMap::serialize_key`
(src/serde/ser/serializer.rs lines 462-488): `LeadByte::try_from` failures
become `SerializeError::Custom`, a non-key non-UTF8 type becomes
`SerializeError::InvalidType`. -/
inductive KeySerError where
  | custom (msg : String)
  | invalidType (ft : RionFieldType)
deriving DecidableEq, Repr

/-- Mirrors the lead-byte fixup of `SerializeMap::serialize_key` in
src/serde/ser/serializer.rs (lines 462-488), as a function of the first
byte the key serializer wrote: an already Key-typed lead is kept, a
normal or short UTF-8 lead has its type nibble rewritten in place to the
corresponding Key code, anything else is rejected. -/
def fixKeyLead (b : Nat) : Except KeySerError Nat :=
  match LeadByte.tryFrom b with
  | .error msg => .error (.custom msg)
  | .ok lead =>
    let ft := lead.fieldType
    if ft.isKey then .ok b
    else
      match ft with
      | .normal .utf8 => .ok ((b &&& 0x0F) ||| (NormalRionType.key.toByte <<< 4))
      | .short .utf8 => .ok ((b &&& 0x0F) ||| (ShortRionType.key.toByte <<< 4))
      | _ => .error (.invalidType ft)

/-- Mirrors `Serializer::serialize_unit_variant` in
src/serde/ser/serializer.rs (lines 289-296), which is exactly
`serialize_str(variant)` (lines 259-262): encode the variant name as a
plain string field via `RionField::from_str`. -/
def serializeUnitVariant (variant : List Nat) : Except String (List Nat) :=
  (RionField.fromStr variant).encode

/-- The fuel of `neededBytesAux` is irrelevant once it is at least the
argument. -/
lemma neededBytesAux_eq_of_le (n : Nat) :
    ∀ fuel, n ≤ fuel → neededBytesAux fuel n = neededBytesUsize n := by
  induction n using Nat.strong_induction_on with
  | _ n ih =>
    intro fuel hf
    match n, fuel with
    | 0, fuel => cases fuel <;> rfl
    | m + 1, fuel + 1 =>
      have hlt : (m + 1) / 256 < m + 1 := Nat.div_lt_self (Nat.succ_pos m) (by norm_num)
      have h0 : neededBytesAux (fuel + 1) (m + 1) =
          neededBytesAux fuel ((m + 1) / 256) + 1 := rfl
      have h3 : neededBytesUsize (m + 1) = neededBytesAux m ((m + 1) / 256) + 1 := rfl
      have h1 : neededBytesAux fuel ((m + 1) / 256) = neededBytesUsize ((m + 1) / 256) :=
        ih _ hlt _ (by omega)
      have h2 : neededBytesAux m ((m + 1) / 256) = neededBytesUsize ((m + 1) / 256) :=
        ih _ hlt _ (by omega)
      rw [h0, h1, h3, h2]

/-- Recurrence of `neededBytesUsize`. -/
lemma neededBytesUsize_eq (n : Nat) :
    neededBytesUsize n = if n = 0 then 0 else neededBytesUsize (n / 256) + 1 := by
  match n with
  | 0 => rfl
  | m + 1 =>
    have hle : (m + 1) / 256 ≤ m := by
      have := Nat.div_lt_self (Nat.succ_pos m) (show 1 < 256 by norm_num)
      omega
    have h3 : neededBytesUsize (m + 1) = neededBytesAux m ((m + 1) / 256) + 1 := rfl
    rw [h3, neededBytesAux_eq_of_le _ _ hle]
    simp

/-- The fuel of `intToBytesAux` is irrelevant once it is at least the
argument. -/
lemma intToBytesAux_eq_of_le (n : Nat) :
    ∀ fuel, n ≤ fuel → intToBytesAux fuel n = intToBytes n := by
  induction n using Nat.strong_induction_on with
  | _ n ih =>
    intro fuel hf
    match n, fuel with
    | 0, fuel => cases fuel <;> rfl
    | m + 1, fuel + 1 =>
      have hlt : (m + 1) / 256 < m + 1 := Nat.div_lt_self (Nat.succ_pos m) (by norm_num)
      have h0 : intToBytesAux (fuel + 1) (m + 1) =
          intToBytesAux fuel ((m + 1) / 256) ++ [(m + 1) % 256] := rfl
      have h3 : intToBytes (m + 1) =
          intToBytesAux m ((m + 1) / 256) ++ [(m + 1) % 256] := rfl
      rw [h0, h3, ih _ hlt _ (by omega), ih _ hlt _ (by omega)]

/-- Recurrence of `intToBytes`. -/
lemma intToBytes_eq (n : Nat) :
    intToBytes n = if n = 0 then [] else intToBytes (n / 256) ++ [n % 256] := by
  match n with
  | 0 => rfl
  | m + 1 =>
    have hle : (m + 1) / 256 ≤ m := by
      have := Nat.div_lt_self (Nat.succ_pos m) (show 1 < 256 by norm_num)
      omega
    have h3 : intToBytes (m + 1) = intToBytesAux m ((m + 1) / 256) ++ [(m + 1) % 256] := rfl
    rw [h3, intToBytesAux_eq_of_le _ _ hle]
    simp

/-- `intToBytes` writes exactly `neededBytesUsize` bytes. -/
lemma intToBytes_length (n : Nat) : (intToBytes n).length = neededBytesUsize n := by
  induction n using Nat.strong_induction_on with
  | _ n ih =>
    rw [intToBytes_eq, neededBytesUsize_eq]
    by_cases h : n = 0
    · simp [h]
    · have hlt : n / 256 < n := Nat.div_lt_self (Nat.pos_of_ne_zero h) (by norm_num)
      simp [h, ih _ hlt]

/-- `neededBytesUsize n` vanishes only at zero. -/
lemma neededBytesUsize_eq_zero_iff (n : Nat) : neededBytesUsize n = 0 ↔ n = 0 := by
  rw [neededBytesUsize_eq]
  by_cases h : n = 0 <;> simp [h]

/-- Values below `256 ^ k` need at most `k` bytes. -/
lemma neededBytesUsize_le_of_lt (k : Nat) : ∀ n, n < 256 ^ k → neededBytesUsize n ≤ k := by
  induction k with
  | zero =>
    intro n h
    have : n = 0 := by simpa using h
    simp [this, neededBytesUsize_eq]
  | succ k ih =>
    intro n h
    rw [neededBytesUsize_eq]
    by_cases h0 : n = 0
    · simp [h0]
    · have hdiv : n / 256 < 256 ^ k := by
        rw [Nat.div_lt_iff_lt_mul (by norm_num : 0 < 256)]
        calc n < 256 ^ (k + 1) := h
          _ = 256 ^ k * 256 := by rw [pow_succ]
      have := ih _ hdiv
      simp [h0]
      omega

/-- Folding the big-endian bytes of `n` back into an accumulator. -/
lemma intToBytes_foldl (n : Nat) : ∀ acc : Nat,
    (intToBytes n).foldl (fun a b => a * 256 + b) acc =
      acc * 256 ^ neededBytesUsize n + n := by
  induction n using Nat.strong_induction_on with
  | _ n ih =>
    intro acc
    rw [intToBytes_eq, neededBytesUsize_eq]
    by_cases h : n = 0
    · simp [h]
    · have hlt : n / 256 < n := Nat.div_lt_self (Nat.pos_of_ne_zero h) (by norm_num)
      simp only [if_neg h, List.foldl_append, List.foldl_cons, List.foldl_nil]
      rw [ih _ hlt]
      have hmod : 256 * (n / 256) + n % 256 = n := Nat.div_add_mod n 256
      calc (acc * 256 ^ neededBytesUsize (n / 256) + n / 256) * 256 + n % 256
          = acc * (256 ^ neededBytesUsize (n / 256) * 256) +
              (256 * (n / 256) + n % 256) := by ring
        _ = acc * 256 ^ (neededBytesUsize (n / 256) + 1) + n := by
            rw [hmod, pow_succ]

/-- Reading back the stripped big-endian form of a value below 2^64. -/
lemma bytesToUint_minBytesBE (n : Nat) (h : n < 256 ^ 8) :
    bytesToUint (minBytesBE n) = .ok n := by
  unfold bytesToUint minBytesBE
  by_cases h0 : n = 0
  · simp [h0]
  · have hlen : (intToBytes n).length ≤ 8 := by
      rw [intToBytes_length]
      exact neededBytesUsize_le_of_lt 8 n h
    rw [if_neg h0, if_neg (by omega)]
    have := intToBytes_foldl n 0
    simp only [Nat.zero_mul, Nat.zero_add] at this
    rw [this]

/-- The length of the stripped big-endian form: one byte for zero,
`neededBytesUsize` bytes otherwise. -/
lemma minBytesBE_length (n : Nat) :
    (minBytesBE n).length = if n = 0 then 1 else neededBytesUsize n := by
  unfold minBytesBE
  by_cases h : n = 0 <;> simp [h, intToBytes_length]

lemma takeAppendCons (pre l : List Nat) (x : Nat) :
    (pre ++ x :: l).take (pre.length + 1) = pre ++ [x] := by
  induction pre with
  | nil => rfl
  | cons a t ih => simp [List.length_cons, List.take_succ_cons, ih]

lemma dropAppendCons (pre l : List Nat) (x : Nat) (k : Nat) :
    (pre ++ x :: l).drop (pre.length + 1 + k) = l.drop k := by
  induction pre with
  | nil => simp [Nat.add_comm 1 k]
  | cons a t ih =>
    have : (a :: t).length + 1 + k = (t.length + 1 + k) + 1 := by
      simp [List.length_cons]
      omega
    simp only [List.cons_append, this, List.drop_succ_cons]
    exact ih

lemma getDAppendCons (pre l : List Nat) (x d : Nat) :
    (pre ++ x :: l).getD pre.length d = x := by
  induction pre with
  | nil => rfl
  | cons a t ih => simpa using ih

lemma setAppendCons (pre l : List Nat) (x y : Nat) :
    (pre ++ x :: l).set pre.length y = pre ++ y :: l := by
  induction pre with
  | nil => rfl
  | cons a t ih => simp [List.set, ih]

/-- Dropping the length-byte region (the spliced zeros plus the original
placeholder) leaves the payload. -/
lemma dropReplicateZero (k : Nat) (payload : List Nat) (hk : 1 ≤ k) :
    (List.replicate (k - 1) 0 ++ 0 :: payload).drop k = payload := by
  have hsplit : List.replicate (k - 1) 0 ++ 0 :: payload =
      (List.replicate (k - 1) 0 ++ [0]) ++ payload := by simp
  have hlen : (List.replicate (k - 1) (0 : Nat) ++ [0]).length = k := by
    simp [List.length_replicate]
    omega
  rw [hsplit]
  exact List.drop_left' hlen

/-- C1: the round-trip claim `from_bytes(to_bytes(v)) == v` fails at the
boolean `true`: the encoder emits the single byte 0x12, but decoding that
byte at type bool produces no value (the lead parses as
`Bool(Some(false))` and `is_null` holds for every Bool lead, so the
deserializer calls `visit_none`, which the bool visitor rejects). -/
theorem roundtrip_fails_on_true :
    RionField.encode (.bool (some true)) = .ok [0x12] ∧
    (deserializeFieldBool [0x12]).toOption = none :=
  ⟨rfl, rfl⟩

/-- C2: the lead-byte decoder does not return the value carried in the
low nibble: `RionFieldType::try_from` masks with 0x30 instead of the low
nibble, so 0x10, 0x11 and 0x12 all decode to `Bool(Some(false))` — the
null (low nibble 0) and true (low nibble 2) answers are unreachable. -/
theorem tiny_lead_always_decodes_false :
    RionFieldType.tryFrom 0x10 = .ok (.bool (some false)) ∧
    RionFieldType.tryFrom 0x11 = .ok (.bool (some false)) ∧
    RionFieldType.tryFrom 0x12 = .ok (.bool (some false)) :=
  ⟨rfl, rfl, rfl⟩

/-- C3 counterexample: the empty string (byte length 0, hence ≤ 15) is
not given the short UTF-8 tag: `From<&str>` maps it to a normal UTF-8
field whose encoding is the single lead byte 0x50. -/
theorem empty_string_uses_normal_tag :
    RionField.fromStr [] = .normal .utf8 [] ∧
    RionField.encode (RionField.fromStr []) = .ok [0x50] ∧
    (RionField.fromStr []).isShortType .utf8 = false :=
  ⟨rfl, rfl, rfl⟩

/-- C3 amended: the encoder uses the short UTF-8 tag exactly for byte
lengths 1..=15 and the normal UTF-8 tag exactly for length 0 or length
above 15; a Key field uses the short Key tag exactly for lengths ≤ 15
(including 0) and the normal Key tag beyond. -/
theorem short_tag_boundary (s : List Nat) :
    ((RionField.fromStr s).isShortType .utf8 = true ↔ 1 ≤ s.length ∧ s.length ≤ 15) ∧
    ((RionField.fromStr s).isNormalType .utf8 = true ↔ s.length = 0 ∨ 15 < s.length) ∧
    ((RionField.key s).isShortType .key = true ↔ s.length ≤ 15) ∧
    ((RionField.key s).isNormalType .key = true ↔ 15 < s.length) := by
  unfold RionField.fromStr RionField.key
  by_cases h0 : s.length = 0
  · simp [h0, RionField.isShortType, RionField.isNormalType]
  · by_cases h15 : s.length ≤ 15
    · have h16 : s.length < 16 := by omega
      have hne : s ≠ [] := by
        intro hcon
        rw [hcon] at h0
        exact h0 rfl
      simp only [if_neg h0, if_pos h15, if_pos h16]
      simp [RionField.isShortType, RionField.isNormalType]
      exact ⟨⟨by omega, h15⟩, hne, h15⟩
    · have h16 : ¬ s.length < 16 := by omega
      simp only [if_neg h0, if_neg h15, if_neg h16]
      simp [RionField.isShortType, RionField.isNormalType]
      omega

/-- Witness for the amended C3 statement at the one-byte string "A". -/
theorem short_tag_boundary_witness :
    (RionField.fromStr [0x41]).isShortType .utf8 = true :=
  ((short_tag_boundary [0x41]).1).mpr (by decide)

/-- C5 counterexample: an object payload with two pairs under the equal
key "a" (bytes 0x61) decodes without any error; the map keeps the second
value.  No `DuplicateKey` check exists in `RionObject::parse_rest`. -/
theorem duplicate_key_decodes_ok :
    RionObject.parseRest [0xE1, 0x61, 0x21, 1, 0xE1, 0x61, 0x21, 2] =
      .ok [([0x61], .short .int64Positive [2])] :=
  rfl

/-- C5 amended: decoding an object payload whose two pairs carry equal
key bytes succeeds and keeps the value of the last pair (the map insert
silently replaces the earlier binding). -/
theorem duplicate_key_last_wins (v1 v2 : Nat) :
    RionObject.parseRest [0xE1, 0x61, 0x21, v1, 0xE1, 0x61, 0x21, v2] =
      .ok [([0x61], .short .int64Positive [v2])] :=
  rfl

/-- Witness for the amended C5 statement at values 5 and 6. -/
theorem duplicate_key_last_wins_witness :
    RionObject.parseRest [0xE1, 0x61, 0x21, 5, 0xE1, 0x61, 0x21, 6] =
      .ok [([0x61], .short .int64Positive [6])] :=
  duplicate_key_last_wins 5 6

/-- C6 counterexample: the serde top-level decode (`from_bytes`) does not
reject trailing bytes: the integer field [0x21, 0x0A] followed by the
extra byte 0xFF decodes to 10 instead of failing with `ExtraData`. -/
theorem from_bytes_ignores_trailing :
    deserializeFieldInt [0x21, 0x0A, 0xFF] = .ok 10 :=
  rfl

/-- C6 amended: only the slice-level decoders reject trailing input:
`RionField::from_slice` fails with "Extra data after field" whenever a
parse leaves a non-empty remainder, while the serde `from_bytes` ignores
the remainder and returns the value of the leading field. -/
theorem from_slice_rejects_trailing (data : List Nat) (f : RionField) (rest : List Nat)
    (hp : RionField.parse data = .ok (f, rest)) (hr : rest ≠ []) :
    RionField.fromSlice data = .error "Extra data after field" ∧
    deserializeFieldInt [0x21, 0x0A, 0xFF] = .ok 10 := by
  refine ⟨?_, rfl⟩
  unfold RionField.fromSlice
  rw [hp]
  cases rest with
  | nil => exact absurd rfl hr
  | cons a t => rfl

/-- Witness for the amended C6 statement at the trailing-byte input. -/
theorem from_slice_rejects_trailing_witness :
    RionField.fromSlice [0x21, 0x0A, 0xFF] = .error "Extra data after field" ∧
    deserializeFieldInt [0x21, 0x0A, 0xFF] = .ok 10 :=
  from_slice_rejects_trailing [0x21, 0x0A, 0xFF] (.short .int64Positive [0x0A]) [0xFF]
    rfl (by decide)

/-- C8 counterexample: serializing the unit variant named "Unit" emits
the short UTF-8 string field [0x64, 'U', 'n', 'i', 't'] — the lead byte
carries the plain UTF-8 type nibble 0x6, not a Key type code. -/
theorem unit_variant_is_not_key :
    serializeUnitVariant [0x55, 0x6E, 0x69, 0x74] = .ok [0x64, 0x55, 0x6E, 0x69, 0x74] ∧
    (RionField.fromStr [0x55, 0x6E, 0x69, 0x74]).isKey = false :=
  ⟨rfl, rfl⟩

/-- C8 amended: a unit enum variant serializes as a single plain UTF-8
string field containing the variant name (short UTF-8 lead for names of
1..=15 bytes); the emitted field is not Key-typed. -/
theorem unit_variant_utf8 (name : List Nat) (h1 : 1 ≤ name.length)
    (h15 : name.length ≤ 15) :
    serializeUnitVariant name = .ok (((0x6 <<< 4) ||| name.length) :: name) ∧
    (RionField.fromStr name).isKey = false := by
  unfold serializeUnitVariant RionField.fromStr
  rw [if_neg (by omega), if_pos h15]
  exact ⟨rfl, rfl⟩

/-- Witness for the amended C8 statement at the variant name "Ok". -/
theorem unit_variant_utf8_witness :
    serializeUnitVariant [0x4F, 0x6B] = .ok [0x62, 0x4F, 0x6B] :=
  (unit_variant_utf8 [0x4F, 0x6B] (by decide) (by decide)).1

/-- C4: a negative value −v is encoded under type 0x3 with the stripped
big-endian magnitude v−1, and the short-field decoder reconstructs
−(m+1); in particular −42 encodes exactly as [0x31, 0x29] and decoding
[0x31, 0x29] yields −42. -/
theorem negative_int_codec (v : Nat) (h1 : 1 ≤ v) (h2 : v ≤ 2 ^ 63) :
    RionField.fromI64 (-(v : Int)) = .short .int64Negative (minBytesBE (v - 1)) ∧
    RionField.encode (RionField.fromI64 (-(v : Int))) =
      .ok (((0x3 <<< 4) ||| (minBytesBE (v - 1)).length) :: minBytesBE (v - 1)) ∧
    deserializeShortNeg (minBytesBE (v - 1)) = .ok (-(v : Int)) ∧
    RionField.encode (RionField.fromI64 (-42)) = .ok [0x31, 0x29] ∧
    deserializeFieldInt [0x31, 0x29] = .ok (-42) := by
  have hneg : (-(v : Int)) < 0 := by omega
  have hf : RionField.fromI64 (-(v : Int)) = .short .int64Negative (minBytesBE (v - 1)) := by
    unfold RionField.fromI64
    rw [if_pos hneg]
    congr 1
    have hmag : -(-(v : Int) + 1) = (v : Int) - 1 := by ring
    rw [hmag]
    congr 1
    omega
  refine ⟨hf, ?_, ?_, rfl, rfl⟩
  · rw [hf]
    rfl
  · unfold deserializeShortNeg
    rw [bytesToUint_minBytesBE (v - 1) (by
      have h256 : (256 : Nat) ^ 8 = 2 ^ 64 := by norm_num
      omega)]
    simp only [Except.map]
    congr 1
    omega

/-- Witness for C4 at v = 42. -/
theorem negative_int_codec_witness :
    deserializeShortNeg (minBytesBE 41) = .ok (-42) :=
  (negative_int_codec 42 (by norm_num) (by norm_num)).2.2.1

/-- C7: the first byte written by a map-key serialization is kept when it
is already Key-typed, has its type nibble rewritten in place to the Key
code when it is a short (0x6 → 0xE) or normal (0x5 → 0xD) UTF-8 lead,
and causes an invalid-key-type error for every other parsed type. -/
theorem map_key_lead_fixup (b : Nat) (ft : RionFieldType) (hb : b < 256)
    (h : RionFieldType.tryFrom b = .ok ft) :
    (ft.isKey = true → fixKeyLead b = .ok b) ∧
    (ft = .short .utf8 → fixKeyLead b = .ok ((b &&& 0x0F) ||| 0xE0)) ∧
    (ft = .normal .utf8 → fixKeyLead b = .ok ((b &&& 0x0F) ||| 0xD0)) ∧
    (ft.isKey = false → ft ≠ .short .utf8 → ft ≠ .normal .utf8 →
      fixKeyLead b = .error (.invalidType ft)) := by
  have hlead : LeadByte.tryFrom b = .ok ⟨ft, b⟩ := by
    unfold LeadByte.tryFrom
    rw [h]
    rfl
  unfold fixKeyLead
  rw [hlead]
  refine ⟨?_, ?_, ?_, ?_⟩
  · intro hk
    simp [hk]
  · intro he
    subst he
    have hsh : ShortRionType.key.toByte <<< 4 = 224 := rfl
    simp [RionFieldType.isKey, hsh]
  · intro he
    subst he
    have hsh : NormalRionType.key.toByte <<< 4 = 208 := rfl
    simp [RionFieldType.isKey, hsh]
  · intro hk h2 h3
    cases ft with
    | short t => cases t <;> simp_all [RionFieldType.isKey]
    | normal t => cases t <;> simp_all [RionFieldType.isKey]
    | bool ob => simp [RionFieldType.isKey]
    | extended => simp [RionFieldType.isKey]

/-- Witness for C7 at the short UTF-8 lead 0x63. -/
theorem map_key_lead_fixup_witness : fixKeyLead 0x63 = .ok 0xE3 :=
  (map_key_lead_fixup 0x63 (.short .utf8) (by norm_num) rfl).2.1 rfl

/-- Unfolding of `endContainer` on a state with a non-empty stack. -/
lemma endContainer_cons (out : List Nat) (start : Nat) (rest : List Nat) :
    endContainer ⟨out, start :: rest⟩ =
      if neededBytesUsize (out.length - start - 2) = 0 then
        Except.ok ⟨out.take (start + 1) ++ out.drop (start + 2), rest⟩
      else
        Except.ok ⟨((out.set start ((out.getD start 0) |||
              neededBytesUsize (out.length - start - 2))).take (start + 1) ++
            List.replicate (neededBytesUsize (out.length - start - 2) - 1) 0 ++
            (out.set start ((out.getD start 0) |||
              neededBytesUsize (out.length - start - 2))).drop (start + 1)).take (start + 1) ++
          intToBytes (out.length - start - 2) ++
          ((out.set start ((out.getD start 0) |||
              neededBytesUsize (out.length - start - 2))).take (start + 1) ++
            List.replicate (neededBytesUsize (out.length - start - 2) - 1) 0 ++
            (out.set start ((out.getD start 0) |||
              neededBytesUsize (out.length - start - 2))).drop (start + 1)).drop
            (start + 1 + neededBytesUsize (out.length - start - 2)), rest⟩ := rfl

/-- C9: closing a container opened by `start_container`, after `payload`
bytes were appended, computes the payload length as the bytes written
past the lead and the reserved placeholder, sets the L nibble of the lead
to `needed_bytes` of that length (at most 8), widens or removes the
placeholder and writes exactly that many big-endian length bytes between
the lead and the payload; an empty payload yields the single lead byte
with L = 0, no length bytes and no payload. -/
theorem container_end_framing (pre payload : List Nat) (t : Nat) (stackRest : List Nat)
    (h64 : payload.length < 2 ^ 64) :
    neededBytesUsize payload.length ≤ 8 ∧
    endContainer { output := (startContainer ⟨pre, stackRest⟩ t).output ++ payload,
                   stack := (startContainer ⟨pre, stackRest⟩ t).stack } =
      .ok { output := pre ++ ((t <<< 4) ||| neededBytesUsize payload.length) ::
              (intToBytes payload.length ++ payload),
            stack := stackRest } := by
  have h256 : payload.length < 256 ^ 8 := by
    have hpow : (256 : Nat) ^ 8 = 2 ^ 64 := by norm_num
    omega
  refine ⟨neededBytesUsize_le_of_lt 8 _ h256, ?_⟩
  show endContainer ⟨(pre ++ [t <<< 4, 0]) ++ payload, pre.length :: stackRest⟩ = _
  rw [endContainer_cons]
  have hlen : ((pre ++ [t <<< 4, 0]) ++ payload).length - pre.length - 2 = payload.length := by
    simp
  have hout : (pre ++ [t <<< 4, 0]) ++ payload = pre ++ (t <<< 4) :: 0 :: payload := by
    simp
  rw [hlen, hout]
  by_cases h0 : payload.length = 0
  · have hpl : payload = [] := List.length_eq_zero.mp h0
    subst hpl
    rw [if_pos (show neededBytesUsize ([] : List Nat).length = 0 from rfl)]
    have htake := takeAppendCons pre [0] (t <<< 4)
    have hdrop := dropAppendCons pre [0] (t <<< 4) 1
    rw [show pre.length + 2 = pre.length + 1 + 1 from rfl] at hdrop ⊢
    rw [htake, hdrop]
    simp [Nat.or_zero, neededBytesUsize_eq, intToBytes_eq]
  · have hll : neededBytesUsize payload.length ≠ 0 := by
      rw [Ne, neededBytesUsize_eq_zero_iff]
      exact h0
    rw [if_neg hll]
    have hge1 : 1 ≤ neededBytesUsize payload.length := Nat.pos_of_ne_zero hll
    have hget := getDAppendCons pre (0 :: payload) (t <<< 4) 0
    have hset := setAppendCons pre (0 :: payload) (t <<< 4)
      ((t <<< 4) ||| neededBytesUsize payload.length)
    rw [hget, hset]
    have htake1 := takeAppendCons pre (0 :: payload)
      ((t <<< 4) ||| neededBytesUsize payload.length)
    have hdrop1 : (pre ++ ((t <<< 4) ||| neededBytesUsize payload.length) ::
        0 :: payload).drop (pre.length + 1) = 0 :: payload := by
      have := dropAppendCons pre (0 :: payload)
        ((t <<< 4) ||| neededBytesUsize payload.length) 0
      simpa using this
    rw [htake1, hdrop1]
    have hmid : (pre ++ [(t <<< 4) ||| neededBytesUsize payload.length]) ++
        List.replicate (neededBytesUsize payload.length - 1) 0 ++ 0 :: payload =
        pre ++ ((t <<< 4) ||| neededBytesUsize payload.length) ::
          (List.replicate (neededBytesUsize payload.length - 1) 0 ++ 0 :: payload) := by
      simp
    rw [hmid]
    have htake2 := takeAppendCons pre
      (List.replicate (neededBytesUsize payload.length - 1) 0 ++ 0 :: payload)
      ((t <<< 4) ||| neededBytesUsize payload.length)
    have hdrop2 : (pre ++ ((t <<< 4) ||| neededBytesUsize payload.length) ::
        (List.replicate (neededBytesUsize payload.length - 1) 0 ++ 0 :: payload)).drop
        (pre.length + 1 + neededBytesUsize payload.length) = payload := by
      rw [dropAppendCons pre _ _ (neededBytesUsize payload.length)]
      exact dropReplicateZero (neededBytesUsize payload.length) payload hge1
    rw [htake2, hdrop2]
    simp

/-- Witness for C9: an object container with a four-byte payload. -/
theorem container_end_framing_witness :
    endContainer { output := (startContainer ⟨[], []⟩ 0xC).output ++ [0xE1, 0x61, 0x21, 5],
                   stack := (startContainer ⟨[], []⟩ 0xC).stack } =
      .ok { output := [0xC1, 4, 0xE1, 0x61, 0x21, 5], stack := [] } :=
  (container_end_framing [] [0xE1, 0x61, 0x21, 5] 0xC [] (by norm_num)).2

/-- C10: `LeadByte::length` is 0 and `LeadByte::is_null` holds for every
lead whose decoded type is Bool (including the false lead 0x11 and the
true lead 0x12); consequently `deserialize_option` at host type
`Option<bool>` maps each of [0x12], [0x11] and [0x10] to `None`. -/
theorem bool_lead_is_null (b : Nat) (lead : LeadByte) (ob : Option Bool)
    (h : LeadByte.tryFrom b = .ok lead) (hft : lead.fieldType = .bool ob) :
    lead.length = 0 ∧ lead.isNull = true ∧
    deserializeOptionBool [0x12] = .ok none ∧
    deserializeOptionBool [0x11] = .ok none ∧
    deserializeOptionBool [0x10] = .ok none := by
  have h0 : lead.length = 0 := by
    unfold LeadByte.length
    rw [hft]
  refine ⟨h0, ?_, rfl, rfl, rfl⟩
  unfold LeadByte.isNull
  rw [hft]
  cases ob with
  | none => rfl
  | some x => simp [h0]

/-- Witness for C10 at the true lead byte 0x12. -/
theorem bool_lead_is_null_witness :
    deserializeOptionBool [0x12] = .ok none :=
  (bool_lead_is_null 0x12 ⟨.bool (some false), 0x12⟩ (some false) rfl rfl).2.2.1

end Ferion
